import Mathlib

/-!
Verification of the HS-code similarity search engine
(`src/core/matcher.py`, `src/utils/logger.py`).

Vectors are embedded as `List ℝ`.  The faiss flat inner-product index is
modelled from the faiss library semantics used by the code:
`faiss.normalize_L2` rescales each row to unit L2 norm and leaves rows of
zero norm unchanged (`fvec_renorm_L2` guards on `nr > 0`), and
`IndexFlatIP.search` keeps the top `k` rows in a min-heap ordered
lexicographically by (similarity, row id) (`CMin::cmp2` in `Heap.h`;
`add_result` admits a candidate only when it strictly beats the root
value), then reorders the heap best-first (`heap_reorder`), which yields
similarity descending and, on equal similarity, row id descending.
-/

namespace HSCode

/-- One corpus row of the CSV: columns `id`, `code`, `description`. -/
structure CorpusRecord where
  id : String
  code : String
  description : String
deriving DecidableEq, Inhabited, Repr

/-- Mirrors `HSCodeSearchResult` in `src/core/matcher.py`. -/
structure HSCodeSearchResult where
  id : String
  code : String
  description : String
  similarity : ℝ

/-- One entry written to `results.json` by `CustomLogger.log_search_result`. -/
structure Snapshot where
  timestamp : String
  query : String
  results : List HSCodeSearchResult
  result_count : ℕ

/-- Inner product of two float vectors (faiss `METRIC_INNER_PRODUCT`). -/
def dot : List ℝ → List ℝ → ℝ
  | x :: xs, y :: ys => x * y + dot xs ys
  | _, _ => 0

/-- Squared L2 norm of a vector. -/
def norm2 (v : List ℝ) : ℝ := dot v v

/-- L2 norm of a vector. -/
noncomputable def l2norm (v : List ℝ) : ℝ := Real.sqrt (norm2 v)

/-- `faiss.normalize_L2` on one row: rescale to unit norm unless the squared
norm is zero, in which case the row is left unchanged. -/
noncomputable def normalizeL2 (v : List ℝ) : List ℝ :=
  if 0 < norm2 v then v.map (fun x => x / l2norm v) else v

/-- `_initialize_faiss_index`: normalize every corpus row in place and add
them all to the flat index. -/
noncomputable def initializeFaissIndex (vectors : List (List ℝ)) : List (List ℝ) :=
  vectors.map normalizeL2

/-- Pair each similarity with its corpus row index, in scan order. -/
def withIdx : ℕ → List ℝ → List (ℕ × ℝ)
  | _, [] => []
  | i, s :: rest => (i, s) :: withIdx (i + 1) rest

/-- The strict order faiss `CMin::cmp2` places on kept pairs, written here on
(rowIndex, similarity) pairs: smaller similarity first, ties by smaller row
index. -/
def heapLT (a b : ℕ × ℝ) : Prop := a.2 < b.2 ∨ (a.2 = b.2 ∧ a.1 < b.1)

noncomputable instance : DecidableRel heapLT := fun _ _ => instDecidableOr

/-- The heap root: the `heapLT`-least pair among those currently kept. -/
noncomputable def heapRoot (p : ℕ × ℝ) : List (ℕ × ℝ) → ℕ × ℝ
  | [] => p
  | q :: l => if heapLT (heapRoot q l) p then heapRoot q l else p

/-- Remove the first occurrence of a pair from the kept list (the eviction
of the heap root by `heap_replace_top`). -/
noncomputable def removeFirst : List (ℕ × ℝ) → (ℕ × ℝ) → List (ℕ × ℝ)
  | [], _ => []
  | b :: t, a => if b = a then t else b :: removeFirst t a

/-- One `add_result` step of faiss's `HeapBlockResultHandler`: while sentinel
slots remain (fewer than `k` real results kept) the candidate always enters;
once `k` results are kept it enters only when its similarity strictly beats
the root's, evicting the root. -/
noncomputable def addResult (k : ℕ) (st : List (ℕ × ℝ)) (p : ℕ × ℝ) : List (ℕ × ℝ) :=
  if st.length < k then p :: st
  else if (heapRoot (st.headD p) st.tail).2 < p.2 then
    p :: removeFirst st (heapRoot (st.headD p) st.tail)
  else st

/-- The multiset of (rowIndex, similarity) pairs kept by the faiss heap after
scanning all rows. -/
noncomputable def faissKeep (k : ℕ) (ps : List (ℕ × ℝ)) : List (ℕ × ℝ) :=
  ps.foldl (addResult k) []

/-- The output order produced by `heap_reorder`: similarity descending and,
on equal similarity, row index descending. -/
def rankGE (a b : ℕ × ℝ) : Prop := b.2 < a.2 ∨ (a.2 = b.2 ∧ b.1 ≤ a.1)

noncomputable instance : DecidableRel rankGE := fun _ _ => instDecidableOr

instance : IsTotal (ℕ × ℝ) rankGE where
  total a b := by
    rcases lt_trichotomy a.2 b.2 with h | h | h
    · exact Or.inr (Or.inl h)
    · rcases Nat.le_total a.1 b.1 with hn | hn
      · exact Or.inr (Or.inr ⟨h.symm, hn⟩)
      · exact Or.inl (Or.inr ⟨h, hn⟩)
    · exact Or.inl (Or.inl h)

instance : IsTrans (ℕ × ℝ) rankGE where
  trans a b c hab hbc := by
    rcases hab with h1 | ⟨he1, hi1⟩ <;> rcases hbc with h2 | ⟨he2, hi2⟩
    · exact Or.inl (h2.trans h1)
    · exact Or.inl (he2 ▸ h1)
    · exact Or.inl (he1.symm ▸ h2)
    · exact Or.inr ⟨he1.trans he2, hi2.trans hi1⟩

/-- `IndexFlatIP.search` for a single normalized query: score every row by
inner product, keep the top `k` via the heap, and emit them best-first. -/
noncomputable def indexSearch (index : List (List ℝ)) (q : List ℝ) (k : ℕ) : List (ℕ × ℝ) :=
  List.insertionSort rankGE (faissKeep k (withIdx 0 (index.map (fun row => dot q row))))

/-- The initialized `FaissHSCodeMatcher` state: the corpus table `self.df`,
the normalized row vectors held by the faiss index, the index dimension, and
the Bedrock embedding call (`none` models the failure that
`generate_embedding` catches and converts to `None`). -/
structure Matcher where
  df : List CorpusRecord
  index : List (List ℝ)
  dimension : ℕ
  provider : String → Option (List ℝ)

/-- The runtime type of the `query` argument of `search`: a text query, a
precomputed embedding vector, or any other object. -/
inductive Query
  | text (s : String)
  | vec (v : List ℝ)
  | invalid

/-- The query representation passed to `log_search_result`. -/
def queryRepr : Query → String
  | .text s => s
  | _ => "vector_query"

/-- Build one `HSCodeSearchResult` from a returned (rowIndex, similarity)
pair: `row = self.df.iloc[idx]` and the strings are read off the row. -/
noncomputable def toResult (df : List CorpusRecord) (p : ℕ × ℝ) : HSCodeSearchResult :=
  { id := (df.getD p.1 default).id, code := (df.getD p.1 default).code,
    description := (df.getD p.1 default).description, similarity := p.2 }

/-- The body of `search` once a query vector is in hand: faiss raises on a
dimension mismatch and on `k <= 0`, otherwise the query is normalized, the
index is searched, and each returned row index is mapped through
`self.df.iloc` to build the result objects, preserving index order. -/
noncomputable def searchCore (m : Matcher) (qv : List ℝ) (k : ℤ) :
    Except String (List HSCodeSearchResult) :=
  if qv.length ≠ m.dimension then .error "faiss: query dimension mismatch"
  else if k ≤ 0 then .error "faiss: k must be positive"
  else .ok ((indexSearch m.index (normalizeL2 qv) k.toNat).map (toResult m.df))

/-- The `try` block of `search`: a text query goes through the provider and
an embedding failure returns `[]` early; a vector query is used directly;
any other argument raises when `.reshape` is accessed. -/
noncomputable def searchBody (m : Matcher) (q : Query) (k : ℤ) :
    Except String (List HSCodeSearchResult) :=
  match q with
  | .text s =>
    match m.provider s with
    | none => .ok []
    | some qv => searchCore m qv k
  | .vec v => searchCore m v k
  | .invalid => .error "AttributeError: object has no attribute reshape"

/-- The sequence of `log_search_result` calls `search` makes: one per
appended result, each carrying the results accumulated so far. -/
def snapshots (qr ts : String) (res : List HSCodeSearchResult) : List Snapshot :=
  (List.range res.length).map (fun j =>
    { timestamp := ts, query := qr, results := res.take (j + 1), result_count := j + 1 })

/-- `search`: the `try` body with its `except Exception` handler folded in.
Returns the result list and the sequence of snapshot writes emitted. -/
noncomputable def search (m : Matcher) (q : Query) (k : ℤ) (ts : String) :
    List HSCodeSearchResult × List Snapshot :=
  match searchBody m q k with
  | .ok res => (res, snapshots (queryRepr q) ts res)
  | .error _ => ([], [])

/-- `JSONFileHandler.write` for `results.json`: the file content is replaced
by the single new entry. -/
def writeResultsJson (_fs : List Snapshot) (s : Snapshot) : List Snapshot := [s]

/-- One observable `search` call: the returned results, the matcher state
afterwards (unchanged), and the `results.json` content afterwards. -/
noncomputable def searchCall (m : Matcher) (fs : List Snapshot) (q : Query) (k : ℤ)
    (ts : String) : List HSCodeSearchResult × Matcher × List Snapshot :=
  ((search m q k ts).1, m, (search m q k ts).2.foldl writeResultsJson fs)

/-- A raw CSV row before embedding parsing. -/
structure CsvRow where
  id : String
  code : String
  description : String
  embedding : String

/-- `self.df['embedding'].apply(ast.literal_eval)`: parse every embedding
cell, failing on the first unparseable one.  `parse` abstracts
`ast.literal_eval` composed with the float conversion. -/
def parseAll (parse : String → Option (List ℝ)) : List CsvRow → Option (List (List ℝ))
  | [] => some []
  | r :: rs =>
    match parse r.embedding with
    | none => none
    | some e => (parseAll parse rs).map (fun es => e :: es)

/-- Project a CSV row to its corpus record. -/
def toRecord (r : CsvRow) : CorpusRecord := ⟨r.id, r.code, r.description⟩

/-- `_load_data`: parse all embeddings (`ast.literal_eval` raises on a bad
cell), build the dense matrix (`np.array` raises on ragged rows), then read
`shape[1]` (raises on an empty corpus). -/
def loadData (parse : String → Option (List ℝ)) (rows : List CsvRow) :
    Except String (List CorpusRecord × List (List ℝ)) :=
  match parseAll parse rows with
  | none => .error "ValueError: malformed embedding"
  | some embs =>
    if embs.all (fun e => e.length = (embs.headD []).length) then
      if rows.isEmpty then .error "IndexError: tuple index out of range"
      else .ok (rows.map toRecord, embs)
    else .error "ValueError: inhomogeneous array shape"

/-- `__init__` on a fresh singleton slot: load the data, record
`self.dimension = self.vectors.shape[1]`, build the faiss index, store the
provider client. -/
noncomputable def initMatcher (parse : String → Option (List ℝ))
    (prov : String → Option (List ℝ)) (rows : List CsvRow) : Except String Matcher :=
  match loadData parse rows with
  | .error e => .error e
  | .ok rv =>
    .ok { df := rv.1, index := initializeFaissIndex rv.2,
          dimension := (rv.2.headD []).length, provider := prov }

/-- `FaissHSCodeMatcher.get_instance`: return the stored instance if one
exists, otherwise construct one and store it.  The first component is the
returned matcher, the second the class variable `_instance` afterwards. -/
noncomputable def get_instance (inst : Option Matcher) (parse : String → Option (List ℝ))
    (prov : String → Option (List ℝ)) (rows : List CsvRow) :
    Except String (Matcher × Option Matcher) :=
  match inst with
  | some m => .ok (m, some m)
  | none =>
    match initMatcher parse prov rows with
    | .error e => .error e
    | .ok m => .ok (m, some m)

/-- The object produced by calling the `FaissHSCodeMatcher` constructor
directly: either a fully initialized matcher, or the bare object `__init__`
early-returns when `_instance` already exists, which carries no attributes. -/
inductive MatcherObj
  | blank
  | ready (m : Matcher)

/-- Calling the constructor directly: when `_instance` already exists
`__init__` returns immediately, yielding a blank object and leaving the
class variable untouched; otherwise it initializes fully and stores itself. -/
noncomputable def constructMatcher (inst : Option Matcher)
    (parse : String → Option (List ℝ)) (prov : String → Option (List ℝ))
    (rows : List CsvRow) : Except String (MatcherObj × Option Matcher) :=
  match inst with
  | some _ => .ok (.blank, inst)
  | none =>
    match initMatcher parse prov rows with
    | .error e => .error e
    | .ok m => .ok (.ready m, some m)

/-- `search` invoked on a constructor-produced object.  On the blank object
the first statement of the `try` block touches `self.logger`, raising
`AttributeError`; the `except` handler then touches `self.logger` again, so
the exception escapes to the caller. -/
noncomputable def objSearch (o : MatcherObj) (q : Query) (k : ℤ) (ts : String) :
    Except String (List HSCodeSearchResult × List Snapshot) :=
  match o with
  | .blank => .error "AttributeError: object has no attribute logger"
  | .ready m => .ok (search m q k ts)

/-- `generate_embedding` invoked on a constructor-produced object: the blank
object has no `self.co` and no `self.logger`, so the call raises. -/
def objGenerateEmbedding (o : MatcherObj) (s : String) : Except String (Option (List ℝ)) :=
  match o with
  | .blank => .error "AttributeError: object has no attribute co"
  | .ready m => .ok (m.provider s)

/-- A concrete engine over three records with orthogonal unit row vectors
e1, e2, e3 (the three-record scenario of the specification).  The provider
is unreachable. -/
noncomputable def mABC : Matcher :=
  { df := [⟨"A", "0101", "alpha"⟩, ⟨"B", "0202", "beta"⟩, ⟨"C", "0303", "gamma"⟩],
    index := [[1, 0, 0], [0, 1, 0], [0, 0, 1]],
    dimension := 3,
    provider := fun _ => none }

/-- A concrete engine over two records with orthogonal unit row vectors.
The provider is unreachable. -/
noncomputable def mAB : Matcher :=
  { df := [⟨"A", "0101", "alpha"⟩, ⟨"B", "0202", "beta"⟩],
    index := [[1, 0], [0, 1]],
    dimension := 2,
    provider := fun _ => none }

/-- A concrete engine over a single record. -/
noncomputable def mA : Matcher :=
  { df := [⟨"A", "0101", "alpha"⟩],
    index := [[1, 0]],
    dimension := 2,
    provider := fun _ => none }

/-- A concrete embedding parser accepting exactly one cell text. -/
noncomputable def parseOne : String → Option (List ℝ) :=
  fun s => if s = "[1.0, 2.0]" then some [1, 2] else none

end HSCode

namespace HSCode

theorem norm2_nonneg (v : List ℝ) : 0 ≤ norm2 v := by
  induction v with
  | nil => simp [norm2, dot]
  | cons x xs ih =>
    have h : norm2 (x :: xs) = x * x + norm2 xs := rfl
    rw [h]
    nlinarith [mul_self_nonneg x]

theorem dot_sq_le (u v : List ℝ) : dot u v ^ 2 ≤ norm2 u * norm2 v := by
  induction u generalizing v with
  | nil => simp [dot, norm2]
  | cons x xs ih =>
    cases v with
    | nil =>
      simp [dot, norm2]
    | cons y ys =>
      have hd : dot xs ys ^ 2 ≤ norm2 xs * norm2 ys := ih ys
      have hnu : 0 ≤ norm2 xs := norm2_nonneg xs
      have hnv : 0 ≤ norm2 ys := norm2_nonneg ys
      have h1 : dot (x :: xs) (y :: ys) = x * y + dot xs ys := rfl
      have h2 : norm2 (x :: xs) = x * x + norm2 xs := rfl
      have h3 : norm2 (y :: ys) = y * y + norm2 ys := rfl
      rw [h1, h2, h3]
      rcases eq_or_lt_of_le hnu with h0 | h0
      · have hd0 : dot xs ys = 0 := by nlinarith [sq_nonneg (dot xs ys)]
        rw [hd0, ← h0]
        nlinarith [mul_nonneg (mul_self_nonneg x) hnv]
      · nlinarith [sq_nonneg (x * dot xs ys - y * norm2 xs),
          mul_le_mul_of_nonneg_left hd (mul_self_nonneg x)]

theorem abs_dot_le (u v : List ℝ) : |dot u v| ≤ l2norm u * l2norm v := by
  have h1 : |dot u v| = Real.sqrt (dot u v ^ 2) := (Real.sqrt_sq_eq_abs _).symm
  rw [h1, l2norm, l2norm, ← Real.sqrt_mul (norm2_nonneg u)]
  exact Real.sqrt_le_sqrt (dot_sq_le u v)

theorem norm2_map_div (v : List ℝ) (c : ℝ) :
    norm2 (v.map (fun x => x / c)) = norm2 v / (c * c) := by
  induction v with
  | nil => simp [norm2, dot]
  | cons x xs ih =>
    have h1 : norm2 ((x :: xs).map (fun x => x / c)) =
        (x / c) * (x / c) + norm2 (xs.map (fun x => x / c)) := rfl
    have h2 : norm2 (x :: xs) = x * x + norm2 xs := rfl
    rw [h1, h2, ih, div_mul_div_comm, div_add_div_same]

theorem l2norm_normalizeL2 (v : List ℝ) (h : 0 < norm2 v) : l2norm (normalizeL2 v) = 1 := by
  rw [normalizeL2, if_pos h, l2norm, norm2_map_div, l2norm,
    Real.mul_self_sqrt (norm2_nonneg v), div_self (ne_of_gt h), Real.sqrt_one]

theorem normalizeL2_of_zero (v : List ℝ) (h : ¬ 0 < norm2 v) : normalizeL2 v = v := by
  rw [normalizeL2, if_neg h]

theorem norm2_eq_zero_dot (v : List ℝ) (h : norm2 v = 0) : ∀ w, dot v w = 0 := by
  induction v with
  | nil => intro w; cases w <;> simp [dot]
  | cons x xs ih =>
    intro w
    have h2 : norm2 (x :: xs) = x * x + norm2 xs := rfl
    rw [h2] at h
    have hxs : norm2 xs = 0 := by nlinarith [mul_self_nonneg x, norm2_nonneg xs]
    have hx0 : x = 0 := by nlinarith [mul_self_nonneg x, norm2_nonneg xs]
    cases w with
    | nil => simp [dot]
    | cons y ys =>
      have h3 : dot (x :: xs) (y :: ys) = x * y + dot xs ys := rfl
      rw [h3, hx0, ih hxs ys]
      ring

theorem l2norm_normalizeL2_le_one (v : List ℝ) : l2norm (normalizeL2 v) ≤ 1 := by
  by_cases h : 0 < norm2 v
  · exact le_of_eq (l2norm_normalizeL2 v h)
  · have h0 : norm2 v = 0 := le_antisymm (not_lt.mp h) (norm2_nonneg v)
    rw [normalizeL2_of_zero v h, l2norm, h0, Real.sqrt_zero]
    norm_num

theorem l2norm_nonneg (v : List ℝ) : 0 ≤ l2norm v := Real.sqrt_nonneg _

theorem dot_bound (u v : List ℝ) (hu : l2norm u ≤ 1) (hv : l2norm v ≤ 1) :
    -1 ≤ dot u v ∧ dot u v ≤ 1 := by
  have h := abs_dot_le u v
  have h1 : l2norm u * l2norm v ≤ 1 := mul_le_one₀ hu (l2norm_nonneg v) hv
  exact abs_le.mp (le_trans h h1)

theorem heapRoot_mem (p : ℕ × ℝ) (l : List (ℕ × ℝ)) : heapRoot p l ∈ p :: l := by
  induction l generalizing p with
  | nil => simp [heapRoot]
  | cons q l ih =>
    rw [heapRoot]
    split
    · rcases List.mem_cons.mp (ih q) with h | h
      · rw [h]
        exact List.mem_cons_of_mem _ (List.mem_cons_self _ _)
      · exact List.mem_cons_of_mem _ (List.mem_cons_of_mem _ h)
    · exact List.mem_cons_self _ _

theorem removeFirst_subset (l : List (ℕ × ℝ)) (a x : ℕ × ℝ)
    (hx : x ∈ removeFirst l a) : x ∈ l := by
  induction l with
  | nil => exact absurd hx (by simp [removeFirst])
  | cons b t ih =>
    rw [removeFirst] at hx
    split at hx
    · exact List.mem_cons_of_mem _ hx
    · rcases List.mem_cons.mp hx with h | h
      · exact h ▸ List.mem_cons_self _ _
      · exact List.mem_cons_of_mem _ (ih h)

theorem length_removeFirst_of_mem (l : List (ℕ × ℝ)) (a : ℕ × ℝ) (ha : a ∈ l) :
    (removeFirst l a).length + 1 = l.length := by
  induction l with
  | nil => cases ha
  | cons b t ih =>
    rw [removeFirst]
    split
    · simp
    · next hne =>
      have hat : a ∈ t := by
        rcases List.mem_cons.mp ha with h | h
        · exact absurd h.symm hne
        · exact h
      simp only [List.length_cons, ih hat]

theorem addResult_mem (k : ℕ) (st : List (ℕ × ℝ)) (p x : ℕ × ℝ)
    (hx : x ∈ addResult k st p) : x ∈ st ∨ x = p := by
  rw [addResult] at hx
  split at hx
  · rcases List.mem_cons.mp hx with h | h
    · exact Or.inr h
    · exact Or.inl h
  · split at hx
    · rcases List.mem_cons.mp hx with h | h
      · exact Or.inr h
      · exact Or.inl (removeFirst_subset _ _ _ h)
    · exact Or.inl hx

theorem foldl_addResult_mem (k : ℕ) (ps : List (ℕ × ℝ)) :
    ∀ (st : List (ℕ × ℝ)) (x : ℕ × ℝ), x ∈ ps.foldl (addResult k) st → x ∈ st ∨ x ∈ ps := by
  induction ps with
  | nil => intro st x hx; exact Or.inl hx
  | cons p ps ih =>
    intro st x hx
    rcases ih (addResult k st p) x hx with h | h
    · rcases addResult_mem k st p x h with h2 | h2
      · exact Or.inl h2
      · exact Or.inr (h2 ▸ List.mem_cons_self _ _)
    · exact Or.inr (List.mem_cons_of_mem _ h)

theorem faissKeep_subset (k : ℕ) (ps : List (ℕ × ℝ)) (x : ℕ × ℝ)
    (hx : x ∈ faissKeep k ps) : x ∈ ps := by
  rcases foldl_addResult_mem k ps [] x hx with h | h
  · cases h
  · exact h

theorem addResult_length (k : ℕ) (st : List (ℕ × ℝ)) (p : ℕ × ℝ) (h : st.length ≤ k) :
    (addResult k st p).length = min k (st.length + 1) := by
  rw [addResult]
  split
  · next hlt => simp [Nat.min_eq_right (Nat.succ_le_of_lt hlt)]
  · next hge =>
    have hk : st.length = k := le_antisymm h (not_lt.mp hge)
    cases st with
    | nil =>
      have hk0 : k = 0 := by simpa using hk.symm
      simp [heapRoot, hk0]
    | cons q l =>
      have hroot : heapRoot ((q :: l).headD p) (q :: l).tail ∈ q :: l := heapRoot_mem q l
      split
      · have h1 : (removeFirst (q :: l) (heapRoot ((q :: l).headD p) (q :: l).tail)).length + 1 =
            (q :: l).length := length_removeFirst_of_mem _ _ hroot
        simp only [List.length_cons] at hk h1 ⊢
        omega
      · simp only [List.length_cons] at hk ⊢
        omega

theorem foldl_addResult_length (k : ℕ) (ps : List (ℕ × ℝ)) :
    ∀ (st : List (ℕ × ℝ)), st.length ≤ k →
      (ps.foldl (addResult k) st).length = min k (st.length + ps.length) := by
  induction ps with
  | nil =>
    intro st h
    simp [Nat.min_eq_right h]
  | cons p ps ih =>
    intro st h
    have h1 : (addResult k st p).length = min k (st.length + 1) := addResult_length k st p h
    have h2 : (addResult k st p).length ≤ k := h1 ▸ Nat.min_le_left _ _
    rw [List.foldl_cons, ih _ h2, h1]
    simp only [List.length_cons]
    omega

theorem faissKeep_length (k : ℕ) (ps : List (ℕ × ℝ)) :
    (faissKeep k ps).length = min k ps.length := by
  have h := foldl_addResult_length k ps [] (Nat.zero_le k)
  simpa [faissKeep] using h

end HSCode

namespace HSCode

theorem withIdx_length (l : List ℝ) : ∀ i, (withIdx i l).length = l.length := by
  induction l with
  | nil => intro i; rfl
  | cons s rest ih => intro i; simp [withIdx, ih]

theorem mem_withIdx_snd (l : List ℝ) : ∀ (i : ℕ) (p : ℕ × ℝ), p ∈ withIdx i l → p.2 ∈ l := by
  induction l with
  | nil => intro i p hp; cases hp
  | cons s rest ih =>
    intro i p hp
    rw [withIdx] at hp
    rcases List.mem_cons.mp hp with h | h
    · rw [h]
      exact List.mem_cons_self _ _
    · exact List.mem_cons_of_mem _ (ih (i + 1) p h)

theorem sorted_indexSearch (index : List (List ℝ)) (q : List ℝ) (k : ℕ) :
    (indexSearch index q k).Pairwise rankGE :=
  List.sorted_insertionSort rankGE _

theorem mem_indexSearch (index : List (List ℝ)) (q : List ℝ) (k : ℕ) (x : ℕ × ℝ) :
    x ∈ indexSearch index q k ↔
      x ∈ faissKeep k (withIdx 0 (index.map (fun row => dot q row))) :=
  (List.perm_insertionSort rankGE _).mem_iff

theorem indexSearch_length (index : List (List ℝ)) (q : List ℝ) (k : ℕ) :
    (indexSearch index q k).length = min k index.length := by
  rw [indexSearch, (List.perm_insertionSort rankGE _).length_eq, faissKeep_length,
    withIdx_length, List.length_map]

theorem indexSearch_sim_mem (index : List (List ℝ)) (q : List ℝ) (k : ℕ) (x : ℕ × ℝ)
    (hx : x ∈ indexSearch index q k) : ∃ row ∈ index, x.2 = dot q row := by
  have h1 : x ∈ faissKeep k (withIdx 0 (index.map (fun row => dot q row))) :=
    (mem_indexSearch index q k x).mp hx
  have h2 : x ∈ withIdx 0 (index.map (fun row => dot q row)) := faissKeep_subset _ _ _ h1
  have h3 : x.2 ∈ index.map (fun row => dot q row) := mem_withIdx_snd _ _ _ h2
  rcases List.mem_map.mp h3 with ⟨row, hrow, he⟩
  exact ⟨row, hrow, he.symm⟩

theorem searchCore_ok (m : Matcher) (qv : List ℝ) (k : ℤ) (res : List HSCodeSearchResult)
    (h : searchCore m qv k = .ok res) :
    res = (indexSearch m.index (normalizeL2 qv) k.toNat).map (toResult m.df) := by
  rw [searchCore] at h
  split at h
  · cases h
  · split at h
    · cases h
    · exact (Except.ok.injEq _ _ ▸ h).symm

theorem searchBody_ok_shape (m : Matcher) (q : Query) (k : ℤ) (res : List HSCodeSearchResult)
    (h : searchBody m q k = .ok res) :
    res = [] ∨
      ∃ qv, res = (indexSearch m.index (normalizeL2 qv) k.toNat).map (toResult m.df) := by
  cases q with
  | text s =>
    rw [searchBody] at h
    cases hp : m.provider s with
    | none =>
      rw [hp] at h
      cases h
      exact Or.inl rfl
    | some qv =>
      rw [hp] at h
      exact Or.inr ⟨qv, searchCore_ok m qv k res h⟩
  | vec v => exact Or.inr ⟨v, searchCore_ok m v k res h⟩
  | invalid => cases h

theorem search_fst_shape (m : Matcher) (q : Query) (k : ℤ) (ts : String) :
    (search m q k ts).1 = [] ∨
      ∃ qv, (search m q k ts).1 =
        (indexSearch m.index (normalizeL2 qv) k.toNat).map (toResult m.df) := by
  rw [search]
  cases hb : searchBody m q k with
  | error e => exact Or.inl rfl
  | ok res => exact searchBody_ok_shape m q k res hb

theorem search_sorted (m : Matcher) (q : Query) (k : ℤ) (ts : String) :
    ((search m q k ts).1).Pairwise (fun a b => b.similarity ≤ a.similarity) := by
  rcases search_fst_shape m q k ts with h | ⟨qv, h⟩
  · rw [h]
    exact List.Pairwise.nil
  · rw [h]
    rw [List.pairwise_map]
    refine (sorted_indexSearch _ _ _).imp ?_
    intro a b hab
    rcases hab with h1 | ⟨h1, _⟩
    · exact le_of_lt h1
    · exact le_of_eq h1.symm

theorem search_sim_bound (m : Matcher) (q : Query) (k : ℤ) (ts : String)
    (vs : List (List ℝ)) (hidx : m.index = initializeFaissIndex vs) :
    ∀ r ∈ (search m q k ts).1, -1 ≤ r.similarity ∧ r.similarity ≤ 1 := by
  intro r hr
  rcases search_fst_shape m q k ts with h | ⟨qv, h⟩
  · rw [h] at hr
    cases hr
  · rw [h] at hr
    rcases List.mem_map.mp hr with ⟨p, hp, he⟩
    rcases indexSearch_sim_mem _ _ _ _ hp with ⟨row, hrow, hsim⟩
    rw [hidx, initializeFaissIndex] at hrow
    rcases List.mem_map.mp hrow with ⟨v0, _, hv0⟩
    have hrb : l2norm row ≤ 1 := hv0 ▸ l2norm_normalizeL2_le_one v0
    have hqb : l2norm (normalizeL2 qv) ≤ 1 := l2norm_normalizeL2_le_one qv
    have hb := dot_bound (normalizeL2 qv) row hqb hrb
    rw [← he]
    have hsr : (toResult m.df p).similarity = p.2 := rfl
    rw [hsr, hsim]
    exact hb

theorem indexSearch_ties (index : List (List ℝ)) (q : List ℝ) (k : ℕ) :
    (indexSearch index q k).Pairwise (fun a b => a.2 = b.2 → b.1 ≤ a.1) := by
  refine (sorted_indexSearch index q k).imp ?_
  intro a b hab
  rcases hab with h1 | ⟨h1, h2⟩
  · intro he
    exact absurd (he ▸ h1) (lt_irrefl _)
  · intro _
    exact h2

end HSCode

namespace HSCode

theorem snapshots_length (qr ts : String) (res : List HSCodeSearchResult) :
    (snapshots qr ts res).length = res.length := by
  simp [snapshots]

theorem foldl_write_snapshots (qr ts : String) (res : List HSCodeSearchResult)
    (fs : List Snapshot) (h : res ≠ []) :
    (snapshots qr ts res).foldl writeResultsJson fs =
      [{ timestamp := ts, query := qr, results := res, result_count := res.length }] := by
  cases hn : res.length with
  | zero => exact absurd (List.length_eq_zero.mp hn) h
  | succ n =>
    rw [snapshots, hn, List.range_succ, List.map_append, List.foldl_append]
    simp only [List.map_cons, List.map_nil, List.foldl_cons, List.foldl_nil, writeResultsJson]
    have ht : res.take (n + 1) = res := by
      rw [← hn]
      exact List.take_length res
    rw [ht]

theorem parseAll_some_forall2 (parse : String → Option (List ℝ)) :
    ∀ (rows : List CsvRow) (embs : List (List ℝ)), parseAll parse rows = some embs →
      List.Forall₂ (fun r e => parse (CsvRow.embedding r) = some e) rows embs := by
  intro rows
  induction rows with
  | nil =>
    intro embs h
    rw [parseAll] at h
    cases h
    exact List.Forall₂.nil
  | cons r rs ih =>
    intro embs h
    rw [parseAll] at h
    cases hp : parse r.embedding with
    | none =>
      rw [hp] at h
      cases h
    | some e =>
      rw [hp] at h
      cases hq : parseAll parse rs with
      | none =>
        rw [hq] at h
        cases h
      | some es =>
        rw [hq] at h
        cases h
        exact List.Forall₂.cons hp (ih es hq)

theorem parseAll_isSome_iff (parse : String → Option (List ℝ)) (rows : List CsvRow) :
    (∃ embs, parseAll parse rows = some embs) ↔
      ∀ r ∈ rows, ∃ e, parse r.embedding = some e := by
  induction rows with
  | nil => simp [parseAll]
  | cons r rs ih =>
    constructor
    · intro ⟨embs, h⟩
      rw [parseAll] at h
      cases hp : parse r.embedding with
      | none =>
        rw [hp] at h
        cases h
      | some e =>
        rw [hp] at h
        cases hq : parseAll parse rs with
        | none =>
          rw [hq] at h
          cases h
        | some es =>
          intro x hx
          rcases List.mem_cons.mp hx with hxr | hxr
          · exact ⟨e, hxr ▸ hp⟩
          · exact (ih.mp ⟨es, hq⟩) x hxr
    · intro hall
      rcases hall r (List.mem_cons_self _ _) with ⟨e, he⟩
      rcases ih.mpr (fun x hx => hall x (List.mem_cons_of_mem _ hx)) with ⟨es, hes⟩
      exact ⟨e :: es, by rw [parseAll, he, hes]; rfl⟩

theorem forall2_mem_left {α β : Type} {R : α → β → Prop} :
    ∀ {l1 : List α} {l2 : List β}, List.Forall₂ R l1 l2 → ∀ a ∈ l1, ∃ b ∈ l2, R a b := by
  intro l1 l2 h
  induction h with
  | nil => intro a ha; cases ha
  | cons hr _ ih =>
    intro a ha
    rcases List.mem_cons.mp ha with h1 | h1
    · exact ⟨_, List.mem_cons_self _ _, h1 ▸ hr⟩
    · rcases ih a h1 with ⟨b, hb, hrb⟩
      exact ⟨b, List.mem_cons_of_mem _ hb, hrb⟩

theorem forall2_mem_right {α β : Type} {R : α → β → Prop} :
    ∀ {l1 : List α} {l2 : List β}, List.Forall₂ R l1 l2 → ∀ b ∈ l2, ∃ a ∈ l1, R a b := by
  intro l1 l2 h
  induction h with
  | nil => intro b hb; cases hb
  | cons hr _ ih =>
    intro b hb
    rcases List.mem_cons.mp hb with h1 | h1
    · exact ⟨_, List.mem_cons_self _ _, h1 ▸ hr⟩
    · rcases ih b h1 with ⟨a, ha, hra⟩
      exact ⟨a, List.mem_cons_of_mem _ ha, hra⟩

theorem forall2_head {α β : Type} {R : α → β → Prop} {l1 : List α} {l2 : List β}
    (h : List.Forall₂ R l1 l2) {a : α} (ha : l1.head? = some a) :
    ∃ b, l2.head? = some b ∧ R a b := by
  cases h with
  | nil => cases ha
  | cons hr _ =>
    cases ha
    exact ⟨_, rfl, hr⟩

end HSCode

namespace HSCode

theorem mABC_index_eq :
    mABC.index = initializeFaissIndex [[1, 0, 0], [0, 1, 0], [0, 0, 1]] := by
  norm_num [mABC, initializeFaissIndex, normalizeL2, norm2, dot, l2norm, Real.sqrt_one]

/-- C8: subsequent acquisition calls return the stored instance unchanged. -/
theorem get_instance_idempotent (inst : Option Matcher) (m : Matcher)
    (parse prov : String → Option (List ℝ)) (rows : List CsvRow) (h : inst = some m) :
    get_instance inst parse prov rows = .ok (m, some m) := by
  subst h
  rfl

/-- C8 witness. -/
theorem get_instance_idempotent_witness :
    get_instance (some mA) (fun _ => none) (fun _ => none) [] = .ok (mA, some mA) :=
  get_instance_idempotent (some mA) mA (fun _ => none) (fun _ => none) [] rfl

/-- C9: a direct constructor call with an existing instance yields a blank
object on which every operation fails. -/
theorem direct_constructor_blank (inst : Option Matcher) (m0 : Matcher)
    (parse prov : String → Option (List ℝ)) (rows : List CsvRow) (h : inst = some m0) :
    constructMatcher inst parse prov rows = .ok (MatcherObj.blank, inst) ∧
    (∀ (q : Query) (k : ℤ) (ts : String), objSearch MatcherObj.blank q k ts =
      .error "AttributeError: object has no attribute logger") ∧
    (∀ s, objGenerateEmbedding MatcherObj.blank s =
      .error "AttributeError: object has no attribute co") ∧
    ∀ m, MatcherObj.blank ≠ MatcherObj.ready m := by
  subst h
  exact ⟨rfl, fun q k ts => rfl, fun s => rfl, fun m hc => MatcherObj.noConfusion hc⟩

/-- C9 witness. -/
theorem direct_constructor_blank_witness :
    constructMatcher (some mA) (fun _ => none) (fun _ => none) [] =
      .ok (MatcherObj.blank, some mA) ∧
    objSearch MatcherObj.blank (Query.text "x") 1 "t" =
      .error "AttributeError: object has no attribute logger" :=
  ⟨(direct_constructor_blank (some mA) mA (fun _ => none) (fun _ => none) [] rfl).1,
   (direct_constructor_blank (some mA) mA (fun _ => none) (fun _ => none) [] rfl).2.1
     (Query.text "x") 1 "t"⟩

/-- C6: search is deterministic over the unchanged engine state. -/
theorem search_deterministic (m : Matcher) (fs : List Snapshot) (v : List ℝ) (k : ℤ)
    (ts1 ts2 : String) :
    (searchCall (searchCall m fs (Query.vec v) k ts1).2.1
        (searchCall m fs (Query.vec v) k ts1).2.2 (Query.vec v) k ts2).1 =
      (searchCall m fs (Query.vec v) k ts1).1 := by
  show (search m (Query.vec v) k ts2).1 = (search m (Query.vec v) k ts1).1
  cases hb : searchBody m (Query.vec v) k with
  | error e => rw [search, search, hb]
  | ok res => rw [search, search, hb]

/-- C10: every internal failure is folded into an empty result sequence. -/
theorem search_never_raises (m : Matcher) (q : Query) (k : ℤ) (ts : String) :
    (∀ e, searchBody m q k = Except.error e → search m q k ts = ([], [])) ∧
    (∀ v : List ℝ, v.length ≠ m.dimension → (search m (Query.vec v) k ts).1 = []) ∧
    (search m Query.invalid k ts).1 = [] := by
  refine ⟨?_, ?_, rfl⟩
  · intro e he
    rw [search, he]
  · intro v hv
    have hb : searchBody m (Query.vec v) k = .error "faiss: query dimension mismatch" := by
      rw [searchBody, searchCore, if_pos hv]
    rw [search, hb]

/-- C10 witness. -/
theorem search_never_raises_witness :
    search mAB Query.invalid 1 "t" = ([], []) ∧
    (search mAB (Query.vec [1, 2, 3]) 1 "t").1 = [] ∧
    (search mAB Query.invalid 1 "t").1 = [] :=
  ⟨(search_never_raises mAB Query.invalid 1 "t").1
      "AttributeError: object has no attribute reshape" rfl,
   (search_never_raises mAB (Query.vec [1, 2, 3]) 1 "t").2.1 [1, 2, 3] (by norm_num [mAB]),
   (search_never_raises mAB Query.invalid 1 "t").2.2⟩

/-- C5: k is clamped. -/
theorem k_clamping (m : Matcher) (v : List ℝ) (k : ℤ) (ts : String) :
    (k ≤ 0 → (search m (Query.vec v) k ts).1 = []) ∧
    (0 < k → v.length = m.dimension →
      (search m (Query.vec v) k ts).1.length = min k.toNat m.index.length) := by
  constructor
  · intro hk
    by_cases hd : v.length ≠ m.dimension
    · have hb : searchBody m (Query.vec v) k = .error "faiss: query dimension mismatch" := by
        rw [searchBody, searchCore, if_pos hd]
      rw [search, hb]
    · have hb : searchBody m (Query.vec v) k = .error "faiss: k must be positive" := by
        rw [searchBody, searchCore, if_neg hd, if_pos hk]
      rw [search, hb]
  · intro hk hd
    have hd2 : ¬ v.length ≠ m.dimension := fun hc => hc hd
    have hk2 : ¬ k ≤ 0 := not_le.mpr hk
    have hb : searchBody m (Query.vec v) k =
        .ok ((indexSearch m.index (normalizeL2 v) k.toNat).map (toResult m.df)) := by
      rw [searchBody, searchCore, if_neg hd2, if_neg hk2]
    rw [search, hb]
    show ((indexSearch m.index (normalizeL2 v) k.toNat).map (toResult m.df)).length = _
    rw [List.length_map, indexSearch_length]

/-- C5 witness. -/
theorem k_clamping_witness :
    (search mAB (Query.vec [1, 0]) (-1) "t").1 = [] ∧
    (search mAB (Query.vec [1, 0]) 5 "t").1.length = min (5 : ℤ).toNat mAB.index.length :=
  ⟨(k_clamping mAB [1, 0] (-1) "t").1 (by norm_num),
   (k_clamping mAB [1, 0] 5 "t").2 (by norm_num) (by norm_num [mAB])⟩

/-- C4: provider failure degrades to an empty result and leaves the engine
usable. -/
theorem provider_failure_isolation (m : Matcher) (fs : List Snapshot) (s : String)
    (k : ℤ) (ts : String) (hp : m.provider s = none) :
    (searchCall m fs (Query.text s) k ts).1 = [] ∧
    (searchCall m fs (Query.text s) k ts).2.1 = m ∧
    (∀ (q2 : Query) (k2 : ℤ) (ts2 : String),
      (searchCall (searchCall m fs (Query.text s) k ts).2.1
          (searchCall m fs (Query.text s) k ts).2.2 q2 k2 ts2).1 =
        (search m q2 k2 ts2).1) ∧
    (∀ (q2 : Query) (k2 : ℤ) (ts2 : String),
      ((searchCall (searchCall m fs (Query.text s) k ts).2.1
          (searchCall m fs (Query.text s) k ts).2.2 q2 k2 ts2).1).Pairwise
        (fun a b => b.similarity ≤ a.similarity)) := by
  refine ⟨?_, rfl, fun q2 k2 ts2 => rfl, fun q2 k2 ts2 => search_sorted m q2 k2 ts2⟩
  show (search m (Query.text s) k ts).1 = []
  have hb : searchBody m (Query.text s) k = .ok [] := by
    rw [searchBody, hp]
  rw [search, hb]

/-- C4 witness. -/
theorem provider_failure_isolation_witness :
    (searchCall mAB [] (Query.text "down") 2 "t").1 = [] ∧
    (searchCall mAB [] (Query.text "down") 2 "t").2.1 = mAB :=
  ⟨(provider_failure_isolation mAB [] "down" 2 "t" rfl).1,
   (provider_failure_isolation mAB [] "down" 2 "t" rfl).2.1⟩

end HSCode

namespace HSCode

/-- C1 counterexample: ties are emitted by descending row index, so the
three-record scenario returns B, C, A rather than B, A, C. -/
theorem ranking_tie_counterexample :
    (search mABC (Query.vec [0, 1, 0]) 10 "t").1 =
      [⟨"B", "0202", "beta", 1⟩, ⟨"C", "0303", "gamma", 0⟩, ⟨"A", "0101", "alpha", 0⟩] ∧
    (search mABC (Query.vec [0, 1, 0]) 10 "t").1 ≠
      [⟨"B", "0202", "beta", 1⟩, ⟨"A", "0101", "alpha", 0⟩, ⟨"C", "0303", "gamma", 0⟩] := by
  have he : (search mABC (Query.vec [0, 1, 0]) 10 "t").1 =
      [⟨"B", "0202", "beta", 1⟩, ⟨"C", "0303", "gamma", 0⟩, ⟨"A", "0101", "alpha", 0⟩] := by
    norm_num [mABC, search, searchBody, searchCore, toResult, indexSearch, normalizeL2,
      norm2, dot, l2norm, withIdx, faissKeep, addResult, heapRoot, heapLT, rankGE,
      List.insertionSort, List.orderedInsert, List.getD, List.getElem_cons_succ,
      List.getElem_cons_zero]
    exact ⟨rfl, rfl, rfl⟩
  refine ⟨he, ?_⟩
  rw [he]
  intro hc
  simp only [List.cons.injEq, HSCodeSearchResult.mk.injEq] at hc
  exact absurd hc.2.1.1 (by decide)

/-- C1 (amended): results sorted by similarity non-increasing with values in
[-1, 1]; ties broken by descending row index; scenario returns B, C, A. -/
theorem ranking_spec :
    (∀ (m : Matcher) (q : Query) (k : ℤ) (ts : String) (vs : List (List ℝ)),
      m.index = initializeFaissIndex vs →
        ((search m q k ts).1.Pairwise (fun a b => b.similarity ≤ a.similarity) ∧
          ∀ r ∈ (search m q k ts).1, -1 ≤ r.similarity ∧ r.similarity ≤ 1)) ∧
    (∀ (index : List (List ℝ)) (qv : List ℝ) (kn : ℕ),
      (indexSearch index qv kn).Pairwise (fun a b => a.2 = b.2 → b.1 ≤ a.1)) ∧
    (search mABC (Query.vec [0, 1, 0]) 10 "t").1 =
      [⟨"B", "0202", "beta", 1⟩, ⟨"C", "0303", "gamma", 0⟩, ⟨"A", "0101", "alpha", 0⟩] := by
  refine ⟨fun m q k ts vs hidx =>
      ⟨search_sorted m q k ts, search_sim_bound m q k ts vs hidx⟩,
    fun index qv kn => indexSearch_ties index qv kn, ?_⟩
  norm_num [mABC, search, searchBody, searchCore, toResult, indexSearch, normalizeL2,
    norm2, dot, l2norm, withIdx, faissKeep, addResult, heapRoot, heapLT, rankGE,
    List.insertionSort, List.orderedInsert, List.getD, List.getElem_cons_succ,
    List.getElem_cons_zero]
  exact ⟨rfl, rfl, rfl⟩

/-- C1 witness. -/
theorem ranking_spec_witness :
    mABC.index = initializeFaissIndex [[1, 0, 0], [0, 1, 0], [0, 0, 1]] ∧
    ((search mABC (Query.vec [0, 1, 0]) 10 "t").1.Pairwise
        (fun a b => b.similarity ≤ a.similarity) ∧
      ∀ r ∈ (search mABC (Query.vec [0, 1, 0]) 10 "t").1,
        -1 ≤ r.similarity ∧ r.similarity ≤ 1) :=
  ⟨mABC_index_eq,
   ranking_spec.1 mABC (Query.vec [0, 1, 0]) 10 "t" _ mABC_index_eq⟩

/-- C3 counterexample: a zero-norm corpus row passes through index build
unchanged and a zero-norm query is answered, with no DataError anywhere. -/
theorem zero_vector_counterexample :
    initializeFaissIndex [[0, 0]] = [[0, 0]] ∧
    searchBody mA (Query.vec [0, 0]) 1 = .ok [⟨"A", "0101", "alpha", 0⟩] := by
  constructor
  · norm_num [initializeFaissIndex, normalizeL2, norm2, dot]
  · norm_num [mA, searchBody, searchCore, toResult, indexSearch, normalizeL2, norm2, dot,
      l2norm, withIdx, faissKeep, addResult, heapRoot, heapLT, rankGE,
      List.insertionSort, List.orderedInsert, List.getD]

/-- C3 (amended): zero-norm vectors are left unchanged without error, and
non-degenerate rows are rescaled to unit L2 norm. -/
theorem normalize_policy :
    (∀ v : List ℝ, 0 < norm2 v → l2norm (normalizeL2 v) = 1) ∧
    (∀ v : List ℝ, norm2 v = 0 → normalizeL2 v = v) ∧
    (∀ v w : List ℝ, norm2 v = 0 → dot v w = 0) ∧
    (∀ vs : List (List ℝ), (initializeFaissIndex vs).length = vs.length) :=
  ⟨fun v h => l2norm_normalizeL2 v h,
   fun v h => normalizeL2_of_zero v (by rw [h]; exact lt_irrefl 0),
   fun v w h => norm2_eq_zero_dot v h w,
   fun vs => by simp [initializeFaissIndex]⟩

/-- C3 witness. -/
theorem normalize_policy_witness :
    l2norm (normalizeL2 [3, 4]) = 1 ∧ normalizeL2 [0, 0] = [0, 0] ∧
    dot [0, 0] [5, 6] = 0 :=
  ⟨normalize_policy.1 [3, 4] (by norm_num [norm2, dot]),
   normalize_policy.2.1 [0, 0] (by norm_num [norm2, dot]),
   normalize_policy.2.2.1 [0, 0] [5, 6] (by norm_num [norm2, dot])⟩

/-- C2 counterexample: a call returning two results writes two snapshots,
and a call returning no results writes none. -/
theorem snapshot_count_counterexample :
    (search mAB (Query.vec [1, 0]) 2 "t").2.length = 2 ∧
    (search mAB (Query.vec [1, 0]) 2 "t").2.length ≠ 1 ∧
    (search mAB (Query.text "down") 2 "t").2.length = 0 ∧
    (search mAB (Query.text "down") 2 "t").2.length ≠ 1 := by
  have h1 : (search mAB (Query.vec [1, 0]) 2 "t").2.length = 2 := by
    norm_num [mAB, search, searchBody, searchCore, toResult, indexSearch, normalizeL2,
      norm2, dot, l2norm, withIdx, faissKeep, addResult, heapRoot, heapLT, rankGE,
      List.insertionSort, List.orderedInsert, List.getD, snapshots,
      List.length_map, List.length_range]
  have h2 : (search mAB (Query.text "down") 2 "t").2.length = 0 := by
    norm_num [mAB, search, searchBody, snapshots]
  exact ⟨h1, by rw [h1]; decide, h2, by rw [h2]; decide⟩

/-- C2 (amended): one snapshot write per returned result; the persisted file
ends as the single full snapshot, or is left unchanged when no results. -/
theorem snapshot_per_result (m : Matcher) (fs : List Snapshot) (q : Query) (k : ℤ)
    (ts : String) :
    (search m q k ts).2.length = (search m q k ts).1.length ∧
    (searchCall m fs q k ts).2.2 =
      (if (search m q k ts).1.isEmpty then fs
       else [{ timestamp := ts, query := queryRepr q, results := (search m q k ts).1,
               result_count := (search m q k ts).1.length }]) := by
  constructor
  · cases hb : searchBody m q k with
    | error e =>
      rw [search, hb]
      rfl
    | ok res =>
      rw [search, hb]
      exact snapshots_length _ _ _
  · show (search m q k ts).2.foldl writeResultsJson fs = _
    cases hb : searchBody m q k with
    | error e =>
      rw [search, hb]
      rfl
    | ok res =>
      rw [search, hb]
      by_cases hres : res = []
      · subst hres
        simp [snapshots]
      · rw [foldl_write_snapshots _ _ _ _ hres]
        rw [if_neg (by simp [List.isEmpty_iff, hres])]

end HSCode

namespace HSCode

theorem headD_of_head? {α : Type} {l : List α} {a : α} (h : l.head? = some a) (d : α) :
    l.headD d = a := by
  cases l with
  | nil => cases h
  | cons x t =>
    cases h
    rfl

theorem head?_of_ne_nil {α : Type} {l : List α} (h : l ≠ []) : ∃ a, l.head? = some a := by
  cases l with
  | nil => exact absurd rfl h
  | cons x t => exact ⟨x, rfl⟩

theorem loadData_none (parse : String → Option (List ℝ)) (rows : List CsvRow)
    (hpa : parseAll parse rows = none) :
    loadData parse rows = .error "ValueError: malformed embedding" := by
  rw [loadData, hpa]

theorem loadData_some (parse : String → Option (List ℝ)) (rows : List CsvRow)
    (embs : List (List ℝ)) (hpa : parseAll parse rows = some embs) :
    loadData parse rows =
      (if embs.all (fun e => e.length = (embs.headD []).length) then
        if rows.isEmpty then Except.error "IndexError: tuple index out of range"
        else Except.ok (rows.map toRecord, embs)
      else Except.error "ValueError: inhomogeneous array shape") := by
  rw [loadData, hpa]

/-- C7: corpus loading fails exactly on an unparseable embedding, an empty
corpus, or a dimension mismatch with the first row; success pairs each
record with its vector row. -/
theorem load_data_spec (parse : String → Option (List ℝ)) (rows : List CsvRow) :
    ((∃ recs vecs, loadData parse rows = .ok (recs, vecs)) ↔
      ((∀ r ∈ rows, ∃ e, parse r.embedding = some e) ∧ rows ≠ [] ∧
        ∀ r ∈ rows, ∀ (r0 : CsvRow) (e e0 : List ℝ), rows.head? = some r0 →
          parse r.embedding = some e → parse r0.embedding = some e0 →
          e.length = e0.length)) ∧
    (∀ recs vecs, loadData parse rows = .ok (recs, vecs) → recs.length = vecs.length) := by
  constructor
  · constructor
    · rintro ⟨recs, vecs, hok⟩
      cases hpa : parseAll parse rows with
      | none =>
        rw [loadData_none parse rows hpa] at hok
        cases hok
      | some embs =>
        rw [loadData_some parse rows embs hpa] at hok
        split at hok
        · next hall =>
          split at hok
          · cases hok
          · next hemp =>
            have hf2 := parseAll_some_forall2 parse rows embs hpa
            refine ⟨(parseAll_isSome_iff parse rows).mp ⟨embs, hpa⟩, ?_, ?_⟩
            · intro h0
              rw [h0] at hemp
              exact hemp rfl
            · intro r hr r0 e e0 hhead hpe hpe0
              simp only [List.all_eq_true, decide_eq_true_eq] at hall
              rcases forall2_mem_left hf2 r hr with ⟨e1, he1, hpe1⟩
              have hee1 : e = e1 := Option.some.inj (hpe ▸ hpe1)
              rcases forall2_head hf2 hhead with ⟨e2, hh2, hpe2⟩
              have he02 : e0 = e2 := Option.some.inj (hpe0 ▸ hpe2)
              have hd2 : embs.headD [] = e2 := headD_of_head? hh2 []
              rw [hee1, he02, ← hd2]
              exact hall e1 he1
        · cases hok
    · rintro ⟨hparse, hne, hdims⟩
      rcases (parseAll_isSome_iff parse rows).mpr hparse with ⟨embs, hpa⟩
      have hf2 := parseAll_some_forall2 parse rows embs hpa
      rcases head?_of_ne_nil hne with ⟨r0, hhead⟩
      have hall : embs.all (fun e => e.length = (embs.headD []).length) = true := by
        simp only [List.all_eq_true, decide_eq_true_eq]
        intro e he
        rcases forall2_mem_right hf2 e he with ⟨r, hr, hpe⟩
        rcases forall2_head hf2 hhead with ⟨e0, hh0, hpe0⟩
        rw [headD_of_head? hh0 []]
        exact hdims r hr r0 e e0 hhead hpe hpe0
      have hempf : rows.isEmpty = false := by
        cases rows with
        | nil => exact absurd rfl hne
        | cons x t => rfl
      refine ⟨rows.map toRecord, embs, ?_⟩
      rw [loadData_some parse rows embs hpa, if_pos hall,
        if_neg (by rw [hempf]; exact Bool.false_ne_true)]
  · intro recs vecs hok
    cases hpa : parseAll parse rows with
    | none =>
      rw [loadData_none parse rows hpa] at hok
      cases hok
    | some embs =>
      rw [loadData_some parse rows embs hpa] at hok
      split at hok
      · split at hok
        · cases hok
        · have h := Except.ok.inj hok
          have h1 : recs = rows.map toRecord := (congrArg Prod.fst h).symm
          have h2 : vecs = embs := (congrArg Prod.snd h).symm
          rw [h1, h2, List.length_map]
          exact (parseAll_some_forall2 parse rows embs hpa).length_eq
      · cases hok

/-- C7 witness. -/
theorem load_data_spec_witness :
    loadData parseOne [⟨"A", "01", "alpha", "[1.0, 2.0]"⟩] =
      .ok ([⟨"A", "01", "alpha"⟩], [[1, 2]]) ∧
    ([⟨"A", "01", "alpha"⟩] : List CorpusRecord).length = [[(1 : ℝ), 2]].length := by
  have hok : loadData parseOne [⟨"A", "01", "alpha", "[1.0, 2.0]"⟩] =
      .ok ([⟨"A", "01", "alpha"⟩], [[1, 2]]) := by
    simp [loadData, parseAll, parseOne, toRecord]
  exact ⟨hok, (load_data_spec parseOne [⟨"A", "01", "alpha", "[1.0, 2.0]"⟩]).2
    [⟨"A", "01", "alpha"⟩] [[1, 2]] hok⟩

end HSCode
